import Mathlib

/-!
Verification of the chunk streaming, meshing and terrain generation core of
the `bevy-voxel` repository.  The Rust sources under `src/` are shallowly
embedded: machine integers become `Int`/`Nat`, `f32` arithmetic that is exact
at the evaluated grid points (divisions by powers of two, quarter-turn
rotations followed by `round`) becomes exact `Rat` arithmetic, hash maps
become association lists, and the Bevy ECS world of chunk entities becomes an
association list of chunk entries keyed by chunk coordinate.
-/

namespace Voxel

/-- Model of `bevy`'s `IVec3` (32-bit signed vector); the claims only involve
coordinates far from the `i32` boundaries, so overflow is immaterial and the
components are embedded as `Int`. -/
structure IVec3 where
  x : Int
  y : Int
  z : Int
  deriving DecidableEq, Repr

instance : Add IVec3 := ⟨fun a b => ⟨a.x + b.x, a.y + b.y, a.z + b.z⟩⟩

instance : Sub IVec3 := ⟨fun a b => ⟨a.x - b.x, a.y - b.y, a.z - b.z⟩⟩

instance : Neg IVec3 := ⟨fun a => ⟨-a.x, -a.y, -a.z⟩⟩

/-- Model of `bevy`'s `UVec2` as used for 2-D border-surface coordinates
(`u32` components; the surface coordinates of interest lie in `[0,32)²`). -/
structure SVec2 where
  x : Int
  y : Int
  deriving DecidableEq, Repr

/-- Model of `bevy`'s `Vec3` at the grid points where the source's `f32`
arithmetic is exact: exact rational components. -/
structure QVec3 where
  x : Rat
  y : Rat
  z : Rat
  deriving DecidableEq, Repr

instance : Add QVec3 := ⟨fun a b => ⟨a.x + b.x, a.y + b.y, a.z + b.z⟩⟩

instance : Sub QVec3 := ⟨fun a b => ⟨a.x - b.x, a.y - b.y, a.z - b.z⟩⟩

/-- `src/util.rs`: the six axis directions, in declaration order
`NegX, NegY, NegZ, PosX, PosY, PosZ` (their `as usize` indices are 0..5). -/
inductive Direction where
  | NegX
  | NegY
  | NegZ
  | PosX
  | PosY
  | PosZ
  deriving DecidableEq, Repr

namespace Direction

/-- `Direction::all` from `src/util.rs`. -/
def all : List Direction := [NegX, NegY, NegZ, PosX, PosY, PosZ]

/-- `impl From<Direction> for IVec3` from `src/util.rs`. -/
def toIVec3 : Direction → IVec3
  | NegX => ⟨-1, 0, 0⟩
  | NegY => ⟨0, -1, 0⟩
  | NegZ => ⟨0, 0, -1⟩
  | PosX => ⟨1, 0, 0⟩
  | PosY => ⟨0, 1, 0⟩
  | PosZ => ⟨0, 0, 1⟩

/-- `Direction::inverse` from `src/util.rs`. -/
def inverse : Direction → Direction
  | NegX => PosX
  | NegY => PosY
  | NegZ => PosZ
  | PosX => NegX
  | PosY => NegY
  | PosZ => NegZ

end Direction

/-- `impl From<Direction> for Quat` from `src/util.rs`, embedded as the exact
linear map the quarter-turn quaternion applies to a vector.
`NegX` is `rotation_y(π/2)`, mapping `(x,y,z)` to `(z,y,-x)`; `PosX` is
`rotation_y(-π/2)`; `NegY` is `rotation_x(-π/2)`; `PosY` is
`rotation_x(π/2)`; `NegZ` is the identity and `PosZ` is `rotation_y(π)`.
At the half-integer grid points used by the sources the `f32` computation
followed by `round` recovers these exact values. -/
def rotQuat : Direction → QVec3 → QVec3
  | Direction.NegX, v => ⟨v.z, v.y, -v.x⟩
  | Direction.NegY, v => ⟨v.x, v.z, -v.y⟩
  | Direction.NegZ, v => v
  | Direction.PosX, v => ⟨-v.z, v.y, v.x⟩
  | Direction.PosY, v => ⟨v.x, -v.z, v.y⟩
  | Direction.PosZ, v => ⟨-v.x, v.y, -v.z⟩

/-- `Quat::from(d).inverse()` as used by `Chunk::to_surface`: the inverse
rotation of `rotQuat` (its transpose). -/
def rotQuatInv : Direction → QVec3 → QVec3
  | Direction.NegX, v => ⟨-v.z, v.y, v.x⟩
  | Direction.NegY, v => ⟨v.x, -v.z, v.y⟩
  | Direction.NegZ, v => v
  | Direction.PosX, v => ⟨v.z, v.y, -v.x⟩
  | Direction.PosY, v => ⟨v.x, v.z, -v.y⟩
  | Direction.PosZ, v => ⟨-v.x, v.y, -v.z⟩

theorem rotQuatInv_rotQuat (d : Direction) (v : QVec3) :
    rotQuatInv d (rotQuat d v) = v := by
  cases d <;> simp [rotQuat, rotQuatInv]

/-- `BlockId` from `src/block.rs` (a `u16` newtype; the ids appearing in the
claims are tiny, so the wrap-around at `2^16` never comes into play). -/
def BlockId := Nat

instance : DecidableEq BlockId := instDecidableEqNat

instance : OfNat BlockId n := ⟨(n : Nat)⟩

/-- `Chunk::SIZE` from `src/chunk.rs`. -/
def chunkSize : Int := 32

/-- `Border` from `src/chunk.rs`: a `[u8; 32*32/8]` bitmask, embedded as the
byte array's contents indexed by byte position. -/
def Border := Nat → Nat

/-- `Border::new` from `src/chunk.rs`: the all-zero bitmask. -/
def Border.new : Border := fun _ => 0

/-- `Border::occupied` from `src/chunk.rs`:
`i = p.x + p.y * 32; self.0[i/8] & 1 << i%8 != 0`. -/
def Border.occupied (b : Border) (p : SVec2) : Bool :=
  let i := (p.x + p.y * chunkSize).toNat
  b (i / 8) &&& (1 <<< (i % 8)) != 0

/-- `Border::set_occupied` from `src/chunk.rs`:
`i = p.x + p.y * 32; self.0[i/8] |= 1 << i%8`. -/
def Border.setOccupied (b : Border) (p : SVec2) : Border :=
  let i := (p.x + p.y * chunkSize).toNat
  fun j => if j = i / 8 then b j ||| (1 <<< (i % 8)) else b j

/-- The surface coordinates of one chunk face: `[0,32)²`. -/
def surfIn (p : SVec2) : Prop := 0 ≤ p.x ∧ p.x < 32 ∧ 0 ≤ p.y ∧ p.y < 32

instance (p : SVec2) : Decidable (surfIn p) := by
  unfold surfIn; infer_instance

theorem and_two_pow_ne_zero (x k : Nat) : (x &&& (1 <<< k) != 0) = x.testBit k := by
  rw [Nat.one_shiftLeft]
  rcases h : x.testBit k with _ | _
  · have hz : x &&& 2 ^ k = 0 := by
      rw [Nat.and_two_pow, h]
      simp
    simp [hz]
  · have he : x &&& 2 ^ k = 2 ^ k := by
      rw [Nat.and_two_pow, h]
      simp
    have hne : (2 : Nat) ^ k ≠ 0 := (Nat.pos_pow_of_pos k (by norm_num)).ne'
    simp [he, hne]

theorem testBit_or_single (x k k' : Nat) :
    (x ||| (1 <<< k)).testBit k' = (x.testBit k' || decide (k = k')) := by
  rw [Nat.testBit_or, Nat.one_shiftLeft, Nat.testBit_two_pow]

theorem svec2_eq {p q : SVec2} (hx : p.x = q.x) (hy : p.y = q.y) : p = q := by
  cases p
  cases q
  simp_all

/-- The flat bit index `p.x + 32 p.y` together with the byte split `(i/8, i%8)`
is injective on the surface. -/
theorem border_index_inj {p q : SVec2} (hp : surfIn p) (hq : surfIn q)
    (hj : (p.x + p.y * chunkSize).toNat / 8 = (q.x + q.y * chunkSize).toNat / 8)
    (hk : (p.x + p.y * chunkSize).toNat % 8 = (q.x + q.y * chunkSize).toNat % 8) :
    p = q := by
  obtain ⟨h1, h2, h3, h4⟩ := hp
  obtain ⟨h5, h6, h7, h8⟩ := hq
  simp only [chunkSize] at hj hk
  exact svec2_eq (by omega) (by omega)

/-- After `set_occupied p`, the bit of `q` reads as before unless `q = p`. -/
theorem occupied_setOccupied (b : Border) (p q : SVec2) (hp : surfIn p)
    (hq : surfIn q) :
    (b.setOccupied p).occupied q = (decide (q = p) || b.occupied q) := by
  simp only [Border.setOccupied, Border.occupied]
  by_cases hj : (q.x + q.y * chunkSize).toNat / 8 = (p.x + p.y * chunkSize).toNat / 8
  · rw [if_pos hj, and_two_pow_ne_zero, and_two_pow_ne_zero, testBit_or_single]
    by_cases hk : (q.x + q.y * chunkSize).toNat % 8 = (p.x + p.y * chunkSize).toNat % 8
    · have heq : q = p := border_index_inj hq hp hj hk
      simp [heq, hk]
    · have hne : q ≠ p := by
        intro h
        exact hk (by rw [h])
      simp [hne, Ne.symm hk, Bool.or_comm]
  · rw [if_neg hj, and_two_pow_ne_zero]
    have hne : q ≠ p := by
      intro h
      exact hj (by rw [h])
    simp [hne]

/-- A fresh border has no bit set. -/
theorem occupied_new (q : SVec2) : Border.new.occupied q = false := by
  unfold Border.new Border.occupied
  simp

/-- `Face` from `src/block.rs`: per-face texture id and optional cull
direction. -/
structure Face where
  texture : Nat
  cull : Option Direction
  deriving DecidableEq, Repr

/-- `Cube` from `src/block.rs`: an axis-aligned sub-box in 16ths of a block
(`min`/`max : UVec3`) with one face definition per direction (the `[Face; 6]`
array indexed by `d as usize` becomes a function on `Direction`). -/
structure Cube where
  min : IVec3
  max : IVec3
  faces : Direction → Face

/-- `Block` from `src/block.rs`.  The source field `opaque` (does the block
fill its coordinate, letting adjacent faces be culled) is renamed `full`
here because its original name is a Lean keyword. -/
structure Block where
  full : Bool
  cubes : List Cube

/-- The global `BLOCKS` registry (`HashMap<BlockId, Block>` behind a lock in
`src/block.rs`), embedded as a total lookup: the sources index it with `[..]`,
which panics on a missing id, so only the panic-free executions are in scope. -/
def Registry := BlockId → Block

/-- `Chunk` from `src/chunk.rs`: a `32³` grid of block ids.  The boxed
`[[[BlockId; 32]; 32]; 32]` storage (indexed `[x][z][y]` by the `Index` impl)
is embedded as its lookup function on coordinates. -/
def Chunk := IVec3 → BlockId

/-- `Chunk::new(block)`: a uniform chunk. -/
def Chunk.ofUniform (b : BlockId) : Chunk := fun _ => b

/-- The cell coordinates of a chunk: `[0,32)³`. -/
def cubeIn (p : IVec3) : Prop :=
  0 ≤ p.x ∧ p.x < 32 ∧ 0 ≤ p.y ∧ p.y < 32 ∧ 0 ≤ p.z ∧ p.z < 32

instance (p : IVec3) : Decidable (cubeIn p) := by
  unfold cubeIn; infer_instance

/-- `Chunk::occupied` from `src/chunk.rs`: `blocks[&self[pos]].opaque`. -/
def Chunk.occupiedAt (c : Chunk) (reg : Registry) (pos : IVec3) : Bool :=
  (reg (c pos)).full

/-- Cast of an integer grid point to the rational vector space in which the
source performs its (exact) `f32` rotation arithmetic. -/
def toQVec3 (p : IVec3) : QVec3 := ⟨(p.x : Rat), (p.y : Rat), (p.z : Rat)⟩

/-- `(Self::MAX.as_vec3() - 1.0) / 2.0` from `src/chunk.rs`: the rotation
center `(15.5, 15.5, 15.5)`. -/
def surfCenter : QVec3 := ⟨31 / 2, 31 / 2, 31 / 2⟩

/-- Componentwise `round` of the rational vector back to the integer grid
(the source's `.round().as_uvec3()`; the values reached are exact
integers). -/
def roundQVec3 (v : QVec3) : IVec3 := ⟨round v.x, round v.y, round v.z⟩

/-- `Chunk::from_surface` from `src/chunk.rs`: rotate the in-plane surface
coordinate `(v.x, v.y, 0)` about the chunk center by the direction's
quaternion. -/
def fromSurface (d : Direction) (v : SVec2) : IVec3 :=
  roundQVec3 (rotQuat d (toQVec3 ⟨v.x, v.y, 0⟩ - surfCenter) + surfCenter)

/-- `Chunk::to_surface` from `src/chunk.rs`: the inverse rotation, dropping
the `z` component (which the source asserts to be `0`). -/
def toSurface (d : Direction) (p : IVec3) : SVec2 :=
  let q := roundQVec3 (rotQuatInv d (toQVec3 p - surfCenter) + surfCenter)
  ⟨q.x, q.y⟩

theorem qvec3_sub_def (u w : QVec3) :
    u - w = ⟨u.x - w.x, u.y - w.y, u.z - w.z⟩ := rfl

theorem qvec3_add_def (u w : QVec3) :
    u + w = ⟨u.x + w.x, u.y + w.y, u.z + w.z⟩ := rfl

theorem round_of_eq_intCast {t : Rat} {n : Int} (h : t = (n : Rat)) :
    round t = n := by
  rw [h, round_intCast]

/-- Closed forms of `from_surface`, one per direction. -/
theorem fromSurface_eval (d : Direction) (v : SVec2) :
    fromSurface d v =
      match d with
      | Direction.NegX => ⟨0, v.y, 31 - v.x⟩
      | Direction.NegY => ⟨v.x, 0, 31 - v.y⟩
      | Direction.NegZ => ⟨v.x, v.y, 0⟩
      | Direction.PosX => ⟨31, v.y, v.x⟩
      | Direction.PosY => ⟨v.x, 31, v.y⟩
      | Direction.PosZ => ⟨31 - v.x, v.y, 31⟩ := by
  obtain ⟨a, b⟩ := v
  cases d <;>
    · simp only [fromSurface, toQVec3, surfCenter, qvec3_sub_def, qvec3_add_def,
        rotQuat, roundQVec3, IVec3.mk.injEq]
      refine ⟨round_of_eq_intCast (by push_cast; ring),
        round_of_eq_intCast (by push_cast; ring),
        round_of_eq_intCast (by push_cast; ring)⟩

/-- Closed forms of `to_surface`, one per direction (the source only applies
it to points of the matching face, where the dropped third coordinate is
`0`). -/
theorem toSurface_eval (d : Direction) (p : IVec3) :
    toSurface d p =
      match d with
      | Direction.NegX => ⟨31 - p.z, p.y⟩
      | Direction.NegY => ⟨p.x, 31 - p.z⟩
      | Direction.NegZ => ⟨p.x, p.y⟩
      | Direction.PosX => ⟨p.z, p.y⟩
      | Direction.PosY => ⟨p.x, p.z⟩
      | Direction.PosZ => ⟨31 - p.x, p.y⟩ := by
  obtain ⟨a, b, c⟩ := p
  cases d <;>
    · simp only [toSurface, toQVec3, surfCenter, qvec3_sub_def, qvec3_add_def,
        rotQuatInv, roundQVec3, SVec2.mk.injEq]
      refine ⟨round_of_eq_intCast (by push_cast; ring),
        round_of_eq_intCast (by push_cast; ring)⟩

/-- `to_surface` inverts `from_surface` on the surface square. -/
theorem toSurface_fromSurface (d : Direction) (v : SVec2) :
    toSurface d (fromSurface d v) = v := by
  obtain ⟨a, b⟩ := v
  cases d <;> simp [fromSurface_eval, toSurface_eval]

/-- `from_surface` lands on a cell of the chunk. -/
theorem fromSurface_cubeIn (d : Direction) (v : SVec2) (hv : surfIn v) :
    cubeIn (fromSurface d v) := by
  obtain ⟨a, b⟩ := v
  obtain ⟨h1, h2, h3, h4⟩ := hv
  dsimp only at h1 h2 h3 h4
  cases d <;>
    · simp only [fromSurface_eval, cubeIn]
      omega

/-- `from_surface` is injective on the surface square. -/
theorem fromSurface_inj (d : Direction) {v w : SVec2}
    (h : fromSurface d v = fromSurface d w) : v = w := by
  have hv := toSurface_fromSurface d v
  have hw := toSurface_fromSurface d w
  rw [← hv, ← hw, h]

/-- The loop domain of `Chunk::border`: `for y in 0..32 { for x in 0..32 }`. -/
def surfList : List SVec2 :=
  (List.range 32).flatMap fun (y : Nat) =>
    (List.range 32).map fun (x : Nat) => ⟨(x : Int), (y : Int)⟩

theorem mem_surfList {q : SVec2} : q ∈ surfList ↔ surfIn q := by
  obtain ⟨a, b⟩ := q
  simp only [surfList, List.mem_flatMap, List.mem_map, List.mem_range, surfIn,
    SVec2.mk.injEq]
  constructor
  · rintro ⟨y, hy, x, hx, hqx, hqy⟩
    omega
  · rintro ⟨h1, h2, h3, h4⟩
    exact ⟨b.toNat, by omega, a.toNat, by omega, by omega, by omega⟩

/-- `Chunk::border` from `src/chunk.rs`: set the bit of every surface
coordinate whose face cell holds an opaque block. -/
def Chunk.border (c : Chunk) (d : Direction) (reg : Registry) : Border :=
  surfList.foldl
    (fun b v => if c.occupiedAt reg (fromSurface d v) then b.setOccupied v else b)
    Border.new

/-- The bit a conditional set-fold leaves at `q` is `q`'s own condition, for
`q` in the folded list. -/
theorem occupied_foldl_set (cond : SVec2 → Bool) (l : List SVec2) (b : Border)
    (q : SVec2) (hl : ∀ v ∈ l, surfIn v) (hq : surfIn q) :
    (l.foldl (fun b v => if cond v then b.setOccupied v else b) b).occupied q
      = true ↔ (b.occupied q = true ∨ (q ∈ l ∧ cond q = true)) := by
  induction l generalizing b with
  | nil => simp
  | cons v t ih =>
    have hv : surfIn v := hl v (List.mem_cons_self v t)
    have ht : ∀ w ∈ t, surfIn w := fun w hw => hl w (List.mem_cons_of_mem v hw)
    simp only [List.foldl_cons]
    rw [ih _ ht]
    by_cases hcv : cond v
    · rw [if_pos hcv]
      rw [show (b.setOccupied v).occupied q = (decide (q = v) || b.occupied q) from
        occupied_setOccupied b v q hv hq]
      by_cases hqv : q = v
      · subst hqv
        simp [hcv]
      · simp [hqv]
    · rw [if_neg hcv]
      by_cases hqv : q = v
      · subst hqv
        simp only [Bool.not_eq_true] at hcv
        simp [hcv]
      · simp [hqv]

/-- The border bit of `u` is exactly the opacity of the face cell
`from_surface d u`. -/
theorem border_occupied_iff (c : Chunk) (d : Direction) (reg : Registry)
    (u : SVec2) (hu : surfIn u) :
    (c.border d reg).occupied u = true
      ↔ c.occupiedAt reg (fromSurface d u) = true := by
  unfold Chunk.border
  rw [occupied_foldl_set _ _ _ _ (fun v hv => mem_surfList.mp hv) hu]
  rw [occupied_new]
  simp [mem_surfList.mpr hu]

/-- C10: a fresh `Border` reports every surface coordinate as unoccupied, and
`set_occupied p` sets exactly the bit of `p`: afterwards `occupied q` holds
iff `q = p` or `occupied q` held before (the bit index `x + 32 y` is
injective over `[0,32)²`). -/
theorem border_new_set_occupied_spec (b : Border) (p q : SVec2)
    (hp : surfIn p) (hq : surfIn q) :
    Border.new.occupied q = false ∧
      ((b.setOccupied p).occupied q = true ↔ (q = p ∨ b.occupied q = true)) := by
  refine ⟨occupied_new q, ?_⟩
  rw [occupied_setOccupied b p q hp hq]
  by_cases h : q = p <;> simp [h]

theorem border_new_set_occupied_spec_witness :
    surfIn ⟨3, 4⟩ ∧ surfIn ⟨5, 4⟩ ∧
      (Border.new.occupied ⟨5, 4⟩ = false ∧
        ((Border.new.setOccupied ⟨3, 4⟩).occupied ⟨5, 4⟩ = true ↔
          ((⟨5, 4⟩ : SVec2) = ⟨3, 4⟩ ∨ Border.new.occupied ⟨5, 4⟩ = true))) :=
  ⟨by decide, by decide,
    border_new_set_occupied_spec Border.new ⟨3, 4⟩ ⟨5, 4⟩ (by decide) (by decide)⟩

/-- C6: if exactly one cell of the chunk holds an opaque block and that cell
lies on the `d`-face (it is `from_surface d v` for a surface coordinate `v`),
then `border d` reports occupancy exactly at `to_surface d` of that cell's
position and nowhere else. -/
theorem border_single_opaque_cell (reg : Registry) (c : Chunk) (d : Direction)
    (v : SVec2)
    (hop : c.occupiedAt reg (fromSurface d v) = true)
    (hrest : ∀ q : IVec3, cubeIn q → q ≠ fromSurface d v →
      c.occupiedAt reg q = false)
    (u : SVec2) (hu : surfIn u) :
    (c.border d reg).occupied u = true ↔ u = toSurface d (fromSurface d v) := by
  rw [border_occupied_iff c d reg u hu, toSurface_fromSurface]
  constructor
  · intro h
    by_contra hne
    have hneq : fromSurface d u ≠ fromSurface d v := by
      intro he
      exact hne (fromSurface_inj d he)
    rw [hrest (fromSurface d u) (fromSurface_cubeIn d u hu) hneq] at h
    exact Bool.false_ne_true h
  · intro h
    rw [h]
    exact hop

/-- The single-opaque-cell chunk used to witness the border claims: block id 1
at cell `(0,1,2)` (a cell of the `-x` face), id 0 everywhere else. -/
def chunkOneCell : Chunk :=
  fun p => if p = ⟨0, 1, 2⟩ then (1 : BlockId) else 0

/-- A two-block registry: id 1 is opaque, everything else is not. -/
def registryTwo : Registry :=
  fun i => if (i : Nat) = 1 then ⟨true, []⟩ else ⟨false, []⟩

theorem chunkOneCell_cell : fromSurface Direction.NegX ⟨29, 1⟩ = ⟨0, 1, 2⟩ := by
  simp [fromSurface_eval]

theorem border_single_opaque_cell_witness :
    (chunkOneCell.border Direction.NegX registryTwo).occupied ⟨29, 1⟩ = true := by
  refine (border_single_opaque_cell registryTwo chunkOneCell Direction.NegX
    ⟨29, 1⟩ ?_ ?_ ⟨29, 1⟩ (by decide)).mpr ?_
  · rw [chunkOneCell_cell]
    decide
  · intro q hq hne
    rw [chunkOneCell_cell] at hne
    simp only [Chunk.occupiedAt, chunkOneCell, registryTwo, if_neg hne]
    decide
  · rw [chunkOneCell_cell, toSurface_eval]
    decide

/-- The scheduler-visible state of one chunk entity from `src/world.rs`: which
of the components `Generating`, `ChunkData`, `MissingNeighbors`,
`RequiresMesh` and `Meshing` it currently carries.  `ChunkData` is tracked as
a flag (the chunk payload itself does not influence any scheduling
decision). -/
structure Entry where
  generating : Bool
  chunkData : Bool
  missingNeighbors : Option Nat
  requiresMesh : Bool
  meshing : Bool
  deriving DecidableEq, Repr

/-- The scheduler state: the `VoxelWorld.chunks` map from chunk coordinate to
entity, merged with the components on that entity, as an association list. -/
abbrev WorldMap := List (IVec3 × Entry)

/-- Coordinate lookup (`world.chunks.get(&pos)` followed by reading the
entity's components). -/
def wLookup (w : WorldMap) (pos : IVec3) : Option Entry :=
  (w.find? fun pe => pe.1 = pos).map fun pe => pe.2

/-- `max_element` of an `IVec3` (`src/world.rs` uses bevy's
`IVec3::max_element`). -/
def maxElement (p : IVec3) : Int := max p.x (max p.y p.z)

/-- `min_element` of an `IVec3`. -/
def minElement (p : IVec3) : Int := min p.x (min p.y p.z)

/-- `distance` from `src/world.rs`:
`p.max_element().abs().max(p.min_element().abs()) as u32`, the Chebyshev
norm. -/
def distance (p : IVec3) : Nat :=
  max (maxElement p).natAbs (minElement p).natAbs

theorem distance_eq (p : IVec3) :
    distance p = max p.x.natAbs (max p.y.natAbs p.z.natAbs) := by
  obtain ⟨a, b, c⟩ := p
  simp only [distance, maxElement, minElement]
  omega

/-- An integer interval `[lo, hi]` as a list (the Rust range `lo..=hi`). -/
def intRange (lo hi : Int) : List Int :=
  (List.range (hi - lo + 1).toNat).map fun (i : Nat) => lo + (i : Int)

theorem mem_intRange {lo hi a : Int} : a ∈ intRange lo hi ↔ lo ≤ a ∧ a ≤ hi := by
  simp only [intRange, List.mem_map, List.mem_range]
  constructor
  · rintro ⟨i, hi, rfl⟩
    omega
  · rintro ⟨h1, h2⟩
    exact ⟨(a - lo).toNat, by omega, by omega⟩

/-- The coordinates for which `init_generation` (`src/world.rs`) ensures an
entry exists (and spawns a generation task if the entry is new), in loop
order: `dist = view_distance + 1`, then
`for d in 0..dist { for x in -dist..=dist { for z { for y {` keeping the
offsets `off` with `distance(off) == d` and inserting `center + off`. -/
def initGenerationCoords (center : IVec3) (viewDistance : Nat) : List IVec3 :=
  let dist : Int := (viewDistance : Int) + 1
  (List.range (viewDistance + 1)).flatMap fun (d : Nat) =>
    (intRange (-dist) dist).flatMap fun x =>
      (intRange (-dist) dist).flatMap fun z =>
        (intRange (-dist) dist).filterMap fun y =>
          let off : IVec3 := ⟨x, y, z⟩
          if distance off = d then some (center + off) else none

/-- `despawn_chunks` from `src/world.rs`: after the eviction pass an entry
survives iff its Chebyshev distance from the observer's chunk is at most
`view_distance` (the pass despawns any entry with
`distance(center - pos) > dist`, whatever its lifecycle state). -/
def despawnTick (w : WorldMap) (center : IVec3) (viewDistance : Nat) : WorldMap :=
  w.filter fun pe => !(decide (distance (center - pe.1) > viewDistance))

/-- `handle_generation` from `src/world.rs`, for the completion of the
generation task at `pos`: `missing` is `6` minus the number of the six
neighbor coordinates present in the coordinate map; the completing entry
drops `Generating`, gains `ChunkData`, and gains `MissingNeighbors(missing)`
when `missing > 0` or `RequiresMesh` when `missing = 0`; every neighbor entry
that carries `MissingNeighbors(m)` is decremented to `m - 1` when `m > 1` and
otherwise swaps `MissingNeighbors` for `RequiresMesh`. -/
def handleGenUpdate (pos : IVec3) (missing : Nat) (c : IVec3) (e : Entry) :
    Entry :=
  if c = pos then
    { e with
      generating := false
      chunkData := true
      missingNeighbors := if 0 < missing then some missing else e.missingNeighbors
      requiresMesh := if missing = 0 then true else e.requiresMesh }
  else if Direction.all.any fun d => pos + d.toIVec3 = c then
    match e.missingNeighbors with
    | some m =>
      if 1 < m then { e with missingNeighbors := some (m - 1) }
      else { e with missingNeighbors := none, requiresMesh := true }
    | none => e
  else e

def handleGenStep (w : WorldMap) (pos : IVec3) : WorldMap :=
  let missing :=
    6 - (Direction.all.filter fun d => (wLookup w (pos + d.toIVec3)).isSome).length
  w.map fun pe => (pe.1, handleGenUpdate pos missing pe.1 pe.2)

/-- The spawn condition of `init_mesh` from `src/world.rs` for the entity at
`pos` with entry `e`, against the pre-tick world `w`: the entity matches the
query (`RequiresMesh` plus `ChunkData`), is not culled by
`distance(center - pos) >= view_distance`, and for each of the six directions
the neighbor coordinate is in the map and its entity has `ChunkData` (so its
border can be computed). -/
def initMeshSpawns (w : WorldMap) (center : IVec3) (viewDistance : Nat)
    (pos : IVec3) (e : Entry) : Bool :=
  e.requiresMesh && e.chunkData &&
    !(decide (distance (center - pos) ≥ viewDistance)) &&
    (Direction.all.all fun d =>
      match wLookup w (pos + d.toIVec3) with
      | some ne => ne.chunkData
      | none => false)

/-- One `init_mesh` tick: every queried entry whose spawn condition holds
(checked against the pre-tick world, since component changes go through
deferred `Commands`) swaps `RequiresMesh` for `Meshing`. -/
def initMeshTick (w : WorldMap) (center : IVec3) (viewDistance : Nat) : WorldMap :=
  w.map fun pe =>
    (pe.1,
      if initMeshSpawns w center viewDistance pe.1 pe.2 then
        { pe.2 with requiresMesh := false, meshing := true }
      else pe.2)

/-- The list of coordinates that transition into `Meshing` in one
`init_mesh` tick. -/
def initMeshSpawnList (w : WorldMap) (center : IVec3) (viewDistance : Nat) :
    List IVec3 :=
  (w.filter fun pe => initMeshSpawns w center viewDistance pe.1 pe.2).map
    fun pe => pe.1

/-- Looking a key up after mapping a key-preserving per-entry update over the
world. -/
theorem wLookup_map (w : WorldMap) (g : IVec3 → Entry → Entry) (pos : IVec3) :
    wLookup (w.map fun pe => (pe.1, g pe.1 pe.2)) pos
      = (wLookup w pos).map (g pos) := by
  induction w with
  | nil => rfl
  | cons pe t ih =>
    by_cases h : pe.1 = pos
    · unfold wLookup
      rw [List.map_cons, List.find?_cons_of_pos _ (by simpa using h),
        List.find?_cons_of_pos _ (by simpa using h)]
      simp [h]
    · unfold wLookup at ih ⊢
      rw [List.map_cons, List.find?_cons_of_neg _ (by simpa using h),
        List.find?_cons_of_neg _ (by simpa using h)]
      exact ih

theorem ivec3_add_def (a b : IVec3) :
    a + b = ⟨a.x + b.x, a.y + b.y, a.z + b.z⟩ := rfl

theorem ivec3_sub_def (a b : IVec3) :
    a - b = ⟨a.x - b.x, a.y - b.y, a.z - b.z⟩ := rfl

theorem ivec3_add_sub_cancel (a b : IVec3) : a + b - a = b := by
  cases a
  cases b
  simp only [ivec3_add_def, ivec3_sub_def, IVec3.mk.injEq]
  refine ⟨by ring, by ring, by ring⟩

theorem ivec3_add_sub_cancel2 (a b : IVec3) : a + (b - a) = b := by
  cases a
  cases b
  simp only [ivec3_add_def, ivec3_sub_def, IVec3.mk.injEq]
  refine ⟨by ring, by ring, by ring⟩

/-- The enqueue pass reaches exactly the coordinates within Chebyshev
distance `view_distance` of the observer center: the loop `for d in 0..dist`
with `dist = view_distance + 1` stops at shell `view_distance`, so the
`view_distance + 1` margin shell is never enqueued. -/
theorem mem_initGenerationCoords {center p : IVec3} {vd : Nat} :
    p ∈ initGenerationCoords center vd ↔ distance (p - center) ≤ vd := by
  simp only [initGenerationCoords, List.mem_flatMap, List.mem_range,
    List.mem_filterMap, mem_intRange]
  constructor
  · rintro ⟨d, hd, x, ⟨hx1, hx2⟩, z, ⟨hz1, hz2⟩, y, ⟨hy1, hy2⟩, hif⟩
    rcases hcond : decide (distance ⟨x, y, z⟩ = d) with _ | _
    · rw [if_neg (by simpa using hcond)] at hif
      cases hif
    · rw [if_pos (by simpa using hcond)] at hif
      injection hif with hp
      subst hp
      rw [ivec3_add_sub_cancel]
      have hdist : distance ⟨x, y, z⟩ = d := by simpa using hcond
      omega
  · intro h
    have hd := distance_eq (p - center)
    refine ⟨distance (p - center), by omega, (p - center).x, ⟨by omega, by omega⟩,
      (p - center).z, ⟨by omega, by omega⟩, (p - center).y, ⟨by omega, by omega⟩, ?_⟩
    rw [if_pos rfl, ivec3_add_sub_cancel2]

/-- Lookup after the eviction pass: an entry survives exactly when its
distance from the observer chunk is within `view_distance`, independently of
its lifecycle state. -/
theorem wLookup_despawnTick (w : WorldMap) (center : IVec3) (vd : Nat)
    (p : IVec3) :
    wLookup (despawnTick w center vd) p
      = if distance (center - p) ≤ vd then wLookup w p else none := by
  induction w with
  | nil =>
    simp only [despawnTick, List.filter_nil]
    split <;> rfl
  | cons pe t ih =>
    simp only [despawnTick, List.filter_cons] at ih ⊢
    by_cases hkeep : distance (center - pe.1) ≤ vd
    · rw [if_pos (by simpa using hkeep)]
      by_cases hp : pe.1 = p
      · unfold wLookup
        rw [List.find?_cons_of_pos _ (by simpa using hp),
          List.find?_cons_of_pos _ (by simpa using hp)]
        rw [← hp]
        rw [if_pos hkeep]
      · unfold wLookup at ih ⊢
        rw [List.find?_cons_of_neg _ (by simpa using hp),
          List.find?_cons_of_neg _ (by simpa using hp)]
        exact ih
    · rw [if_neg (by simpa using hkeep)]
      by_cases hp : pe.1 = p
      · rw [ih]
        subst hp
        rw [if_neg hkeep]
        rw [if_neg hkeep]
      · unfold wLookup at ih ⊢
        rw [List.find?_cons_of_neg _ (by simpa using hp)]
        exact ih

/-- A freshly spawned entry: `Generating`, nothing else (the components a
new chunk entity gets in `init_generation`). -/
def entryGenerating : Entry := ⟨true, false, none, false, false⟩

/-- The whole enqueue pass of `init_generation` (`src/world.rs`): for every
coordinate the shell loops visit, `world.chunks.entry(pos).or_insert_with`
creates a fresh generating entry when none exists. -/
def initGenerationTick (w : WorldMap) (center : IVec3) (viewDistance : Nat) :
    WorldMap :=
  (initGenerationCoords center viewDistance).foldl
    (fun w pos =>
      if (wLookup w pos).isSome then w else w ++ [(pos, entryGenerating)]) w

theorem wLookup_append_single (w : WorldMap) (pos p : IVec3) (e : Entry) :
    (wLookup (w ++ [(pos, e)]) p).isSome
      = ((wLookup w p).isSome || decide (p = pos)) := by
  induction w with
  | nil =>
    unfold wLookup
    rw [List.nil_append]
    by_cases h : pos = p
    · rw [List.find?_cons_of_pos _ (by simpa using h)]
      subst h
      simp
    · rw [List.find?_cons_of_neg _ (by simpa using h)]
      have h2 : ¬(p = pos) := fun hh => h hh.symm
      simp [List.find?, h2]
  | cons pe t ih =>
    by_cases h : pe.1 = p
    · unfold wLookup
      rw [List.cons_append, List.find?_cons_of_pos _ (by simpa using h),
        List.find?_cons_of_pos _ (by simpa using h)]
      simp
    · unfold wLookup at ih ⊢
      rw [List.cons_append, List.find?_cons_of_neg _ (by simpa using h),
        List.find?_cons_of_neg _ (by simpa using h)]
      exact ih

/-- After the enqueue pass an entry exists iff it already existed or its
coordinate is among the visited ones. -/
theorem wLookup_initGenerationTick (w : WorldMap) (center : IVec3) (vd : Nat)
    (p : IVec3) :
    (wLookup (initGenerationTick w center vd) p).isSome = true
      ↔ (p ∈ initGenerationCoords center vd ∨ (wLookup w p).isSome = true) := by
  unfold initGenerationTick
  generalize initGenerationCoords center vd = l
  induction l generalizing w with
  | nil => simp
  | cons pos t ih =>
    rw [List.foldl_cons]
    by_cases hpresent : (wLookup w pos).isSome = true
    · rw [if_pos hpresent]
      rw [ih w]
      constructor
      · rintro (h | h)
        · exact Or.inl (List.mem_cons_of_mem pos h)
        · exact Or.inr h
      · rintro (h | h)
        · rcases List.mem_cons.mp h with h2 | h2
          · subst h2
            exact Or.inr hpresent
          · exact Or.inl h2
        · exact Or.inr h
    · rw [if_neg hpresent]
      rw [ih (w ++ [(pos, entryGenerating)])]
      rw [wLookup_append_single]
      constructor
      · rintro (h | h)
        · exact Or.inl (List.mem_cons_of_mem pos h)
        · rcases Bool.or_eq_true_iff.mp h with h2 | h2
          · exact Or.inr h2
          · exact Or.inl (List.mem_cons.mpr (Or.inl (of_decide_eq_true h2)))
      · rintro (h | h)
        · rcases List.mem_cons.mp h with h2 | h2
          · subst h2
            exact Or.inr (Bool.or_eq_true_iff.mpr (Or.inr (by simp)))
          · exact Or.inl h2
        · exact Or.inr (Bool.or_eq_true_iff.mpr (Or.inl h))

/-- The Chebyshev distance is symmetric in the two endpoints. -/
theorem distance_sub_comm (a b : IVec3) : distance (a - b) = distance (b - a) := by
  cases a
  cases b
  simp only [distance_eq, ivec3_sub_def]
  omega

/-- A coordinate is never its own axis neighbor. -/
theorem neighbor_ne_self (pos : IVec3) (d : Direction) :
    pos + d.toIVec3 ≠ pos := by
  cases d <;>
    · intro h
      rw [ivec3_add_def] at h
      have h1 := congrArg IVec3.x h
      have h2 := congrArg IVec3.y h
      have h3 := congrArg IVec3.z h
      simp only [Direction.toIVec3] at h1 h2 h3
      omega

theorem direction_all_mem (d : Direction) : d ∈ Direction.all := by
  cases d <;> simp [Direction.all]

/-- A spawned meshing task has all six neighbors present and density-ready. -/
theorem initMeshSpawns_neighbors {w : WorldMap} {center : IVec3} {vd : Nat}
    {pos : IVec3} {e : Entry}
    (hs : initMeshSpawns w center vd pos e = true) (d : Direction) :
    ∃ ne : Entry, wLookup w (pos + d.toIVec3) = some ne ∧ ne.chunkData = true := by
  unfold initMeshSpawns at hs
  simp only [Bool.and_eq_true, List.all_eq_true] at hs
  have hd := hs.2 d (direction_all_mem d)
  cases hw : wLookup w (pos + d.toIVec3) with
  | none =>
    rw [hw] at hd
    simp at hd
  | some ne =>
    rw [hw] at hd
    exact ⟨ne, rfl, by simpa using hd⟩

/-- C1: `init_mesh` admits an entry into `Meshing` only if every one of the 6
neighbor coordinates is present in the map and already carries `ChunkData`
(density-ready); if any neighbor is absent or lacks `ChunkData`, the entry is
left untouched (it keeps `RequiresMesh` for a later tick). -/
theorem init_mesh_admission_guard (w : WorldMap) (center : IVec3) (vd : Nat)
    (pos : IVec3) (e : Entry) (he : wLookup w pos = some e) :
    (initMeshSpawns w center vd pos e = true →
      ∀ d : Direction, ∃ ne : Entry,
        wLookup w (pos + d.toIVec3) = some ne ∧ ne.chunkData = true) ∧
    ((∃ d : Direction, ∀ ne : Entry,
        wLookup w (pos + d.toIVec3) = some ne → ne.chunkData = false) →
      wLookup (initMeshTick w center vd) pos = some e) := by
  constructor
  · intro hs d
    exact initMeshSpawns_neighbors hs d
  · rintro ⟨d, hd⟩
    have hs : initMeshSpawns w center vd pos e = false := by
      rcases hb : initMeshSpawns w center vd pos e with _ | _
      · rfl
      · obtain ⟨ne, hne, hcd⟩ := initMeshSpawns_neighbors hb d
        rw [hd ne hne] at hcd
        cases hcd
    have h2 : wLookup (initMeshTick w center vd) pos
        = (wLookup w pos).map fun e2 =>
            if initMeshSpawns w center vd pos e2 then
              { e2 with requiresMesh := false, meshing := true }
            else e2 :=
          wLookup_map w
            (fun c e2 =>
              if initMeshSpawns w center vd c e2 then
                { e2 with requiresMesh := false, meshing := true }
              else e2) pos
    rw [h2, he]
    simp [hs]

/-- A `RequiresMesh` entry whose chunk data is present. -/
def entryReady : Entry := ⟨false, true, none, true, false⟩

/-- A density-ready entry that is not mesh-pending. -/
def entryData : Entry := ⟨false, true, none, false, false⟩

/-- A world with two eligible mesh-pending entries, at the origin and at
`(1,0,0)`, both with all six neighbors density-ready. -/
def wEligible : WorldMap :=
  [(⟨0, 0, 0⟩, entryReady), (⟨1, 0, 0⟩, entryReady),
   (⟨-1, 0, 0⟩, entryData), (⟨2, 0, 0⟩, entryData),
   (⟨0, 1, 0⟩, entryData), (⟨0, -1, 0⟩, entryData),
   (⟨0, 0, 1⟩, entryData), (⟨0, 0, -1⟩, entryData),
   (⟨1, 1, 0⟩, entryData), (⟨1, -1, 0⟩, entryData),
   (⟨1, 0, 1⟩, entryData), (⟨1, 0, -1⟩, entryData)]

/-- A world with one mesh-pending entry whose `-x` neighbor is absent. -/
def wLonely : WorldMap := [(⟨0, 0, 0⟩, entryReady)]

theorem init_mesh_admission_guard_witness :
    wLookup (initMeshTick wLonely ⟨0, 0, 0⟩ 5) ⟨0, 0, 0⟩ = some entryReady := by
  refine (init_mesh_admission_guard wLonely ⟨0, 0, 0⟩ 5 ⟨0, 0, 0⟩ entryReady
    (by decide)).2 ⟨Direction.NegX, ?_⟩
  intro ne h
  rw [show wLookup wLonely ((⟨0, 0, 0⟩ : IVec3) + Direction.NegX.toIVec3) = none
    from rfl] at h
  cases h

/-- C4: a meshing task is spawned only for an entry within `view_distance` of
the observer chunk: in fact strictly within it, so in particular no
margin-shell entry (at distance `view_distance + 1`) is ever meshed. -/
theorem init_mesh_distance_guard (w : WorldMap) (center : IVec3) (vd : Nat)
    (pos : IVec3) (e : Entry)
    (hs : initMeshSpawns w center vd pos e = true) :
    distance (center - pos) ≤ vd ∧ distance (center - pos) ≠ vd + 1 := by
  unfold initMeshSpawns at hs
  simp only [Bool.and_eq_true, Bool.not_eq_true', decide_eq_false_iff_not,
    not_le] at hs
  have hlt : distance (center - pos) < vd := hs.1.2
  omega

theorem init_mesh_distance_guard_witness :
    initMeshSpawns wEligible ⟨0, 0, 0⟩ 5 ⟨1, 0, 0⟩ entryReady = true ∧
      (distance ((⟨0, 0, 0⟩ : IVec3) - ⟨1, 0, 0⟩) ≤ 5 ∧
        distance ((⟨0, 0, 0⟩ : IVec3) - ⟨1, 0, 0⟩) ≠ 5 + 1) :=
  ⟨by decide, init_mesh_distance_guard wEligible ⟨0, 0, 0⟩ 5 ⟨1, 0, 0⟩ entryReady
    (by decide)⟩

/-- C5 counterexample: in the world `wEligible` a single `init_mesh` tick
spawns meshing tasks for two entries at once: the source has no one-per-tick
rate limit. -/
theorem init_mesh_rate_limit_counterexample :
    (initMeshSpawnList wEligible ⟨0, 0, 0⟩ 5).length = 2 := by decide

/-- C5 (amended): in a single tick `init_mesh` transitions every eligible
mesh-pending entry into `Meshing` (one task per eligible entry), with no
per-tick cap. -/
theorem init_mesh_spawns_all_eligible (w : WorldMap) (center : IVec3)
    (vd : Nat) (pos : IVec3) (e : Entry) (he : wLookup w pos = some e)
    (hs : initMeshSpawns w center vd pos e = true) :
    wLookup (initMeshTick w center vd) pos
      = some { e with requiresMesh := false, meshing := true } := by
  have h2 : wLookup (initMeshTick w center vd) pos
      = (wLookup w pos).map fun e2 =>
          if initMeshSpawns w center vd pos e2 then
            { e2 with requiresMesh := false, meshing := true }
          else e2 :=
        wLookup_map w
          (fun c e2 =>
            if initMeshSpawns w center vd c e2 then
              { e2 with requiresMesh := false, meshing := true }
            else e2) pos
  rw [h2, he]
  simp [hs]

theorem init_mesh_spawns_all_eligible_witness :
    wLookup (initMeshTick wEligible ⟨0, 0, 0⟩ 5) ⟨1, 0, 0⟩
      = some { entryReady with requiresMesh := false, meshing := true } :=
  init_mesh_spawns_all_eligible wEligible ⟨0, 0, 0⟩ 5 ⟨1, 0, 0⟩ entryReady
    (by decide) (by decide)


theorem direction_filter_length_eq_six (p : Direction → Bool) :
    (Direction.all.filter p).length = 6 ↔ ∀ d, p d = true := by
  constructor
  · intro h d
    have heq : Direction.all.filter p = Direction.all :=
      (List.filter_sublist Direction.all).eq_of_length (by rw [h]; rfl)
    exact List.filter_eq_self.mp heq d (direction_all_mem d)
  · intro h
    rw [List.filter_eq_self.mpr fun a _ => h a]
    rfl

theorem direction_filter_partition (p : Direction → Bool) :
    (Direction.all.filter p).length
      + (Direction.all.filter fun d => !(p d)).length = 6 := by
  cases h1 : p Direction.NegX <;> cases h2 : p Direction.NegY <;>
    cases h3 : p Direction.NegZ <;> cases h4 : p Direction.PosX <;>
    cases h5 : p Direction.PosY <;> cases h6 : p Direction.PosZ <;>
    simp [Direction.all, List.filter_cons, h1, h2, h3, h4, h5, h6]

theorem direction_filter_length_le (p : Direction → Bool) :
    (Direction.all.filter p).length ≤ 6 :=
  le_of_le_of_eq (List.length_filter_le _ _) rfl

/-- C3 counterexample state: a density-ready entry. -/
def entryDensityReady : Entry := ⟨false, true, none, false, false⟩

/-- C3 counterexample: with `view_distance = 0` the enqueue pass never creates
the margin-shell entry at Chebyshev distance `view_distance + 1 = 1`, and the
eviction pass removes a density-ready entry at that distance (the claim says
density-ready entries are kept up to `view_distance + 1`). -/
theorem chunk_entry_margin_counterexample :
    distance ((⟨1, 0, 0⟩ : IVec3) - ⟨0, 0, 0⟩) = 0 + 1 ∧
    (⟨1, 0, 0⟩ : IVec3) ∉ initGenerationCoords ⟨0, 0, 0⟩ 0 ∧
    wLookup (despawnTick [(⟨1, 0, 0⟩, entryDensityReady)] ⟨0, 0, 0⟩ 0) ⟨1, 0, 0⟩
      = none := by decide

/-- C3 (amended): after a full scheduler tick over any starting state — the
enqueue pass, then the generation/mesh handlers (which never add or remove
entries), then the eviction pass — a chunk entry exists for a coordinate iff
its Chebyshev distance from the observer chunk is at most `view_distance`:
the enqueue pass creates an entry exactly for every coordinate within
distance `view_distance` (never the `+1` margin), and the eviction pass
removes an entry exactly when its distance exceeds `view_distance`,
regardless of its lifecycle state or of tasks still in flight. -/
theorem chunk_entry_existence_range (center p : IVec3) (vd : Nat)
    (w : WorldMap) :
    ((wLookup (despawnTick (initGenerationTick w center vd) center vd) p).isSome
        = true ↔ distance (center - p) ≤ vd) ∧
    (p ∈ initGenerationCoords center vd ↔ distance (p - center) ≤ vd) ∧
    (∀ pos2 : IVec3, (wLookup (handleGenStep w pos2) p).isSome
      = (wLookup w p).isSome) ∧
    (∀ c2 : IVec3, ∀ vd2 : Nat, (wLookup (initMeshTick w c2 vd2) p).isSome
      = (wLookup w p).isSome) ∧
    (wLookup (despawnTick w center vd) p
      = if distance (center - p) ≤ vd then wLookup w p else none) := by
  refine ⟨?_, mem_initGenerationCoords, ?_, ?_, wLookup_despawnTick w center vd p⟩
  · rw [wLookup_despawnTick]
    by_cases hdist : distance (center - p) ≤ vd
    · rw [if_pos hdist]
      constructor
      · intro _
        exact hdist
      · intro _
        exact (wLookup_initGenerationTick w center vd p).mpr
          (Or.inl (mem_initGenerationCoords.mpr
            (by rw [distance_sub_comm]; exact hdist)))
    · rw [if_neg hdist]
      simp [hdist]
  · intro pos2
    have h2 : wLookup (handleGenStep w pos2) p
        = (wLookup w p).map
            (handleGenUpdate pos2
              (6 - (Direction.all.filter fun d =>
                (wLookup w (pos2 + d.toIVec3)).isSome).length) p) :=
      wLookup_map w
        (fun c e2 =>
          handleGenUpdate pos2
            (6 - (Direction.all.filter fun d =>
              (wLookup w (pos2 + d.toIVec3)).isSome).length) c e2) p
    rw [h2]
    cases wLookup w p <;> rfl
  · intro c2 vd2
    have h2 : wLookup (initMeshTick w c2 vd2) p
        = (wLookup w p).map fun e2 =>
            if initMeshSpawns w c2 vd2 p e2 then
              { e2 with requiresMesh := false, meshing := true }
            else e2 :=
      wLookup_map w
        (fun c e2 =>
          if initMeshSpawns w c2 vd2 c e2 then
            { e2 with requiresMesh := false, meshing := true }
          else e2) p
    rw [h2]
    cases wLookup w p <;> rfl


/-- Seven entries enqueued together (a center and its six axis neighbors),
all still generating. -/
def wPlusShape : WorldMap :=
  [(⟨0, 0, 0⟩, entryGenerating), (⟨1, 0, 0⟩, entryGenerating),
   (⟨-1, 0, 0⟩, entryGenerating), (⟨0, 1, 0⟩, entryGenerating),
   (⟨0, -1, 0⟩, entryGenerating), (⟨0, 0, 1⟩, entryGenerating),
   (⟨0, 0, -1⟩, entryGenerating)]

/-- C2 counterexample: when the center of `wPlusShape` finishes generating
first, `handle_generation` gives it no `MissingNeighbors` counter and marks
it `RequiresMesh` immediately, although all six neighbors are merely present
in the map and still generating (none is density-ready): the counter counts
absent map entries, not neighbors below the density-ready state, and the
center becomes mesh-pending before any neighbor completes. -/
theorem handle_generation_premature_counterexample :
    wLookup (handleGenStep wPlusShape ⟨0, 0, 0⟩) ⟨0, 0, 0⟩
      = some ⟨false, true, none, true, false⟩ ∧
    (Direction.all.all fun d =>
      decide (wLookup wPlusShape ((⟨0, 0, 0⟩ : IVec3) + d.toIVec3)
        = some entryGenerating)) = true := by decide

/-- C2 (amended): `handle_generation` maintains the missing-neighbor counter
per completion event, not as a density-readiness count.  When the generation
task for `pos` completes, that entry's counter is initialized to the number
of the six neighbor coordinates absent from the coordinate map (a present
neighbor counts as satisfied even while itself still generating) and the
entry is marked `RequiresMesh`, with no counter, iff all six neighbor
entries exist at that moment; in the same event, every neighbor entry
currently carrying a counter `m` is decremented to `m - 1` when `m > 1` and
otherwise trades its counter for `RequiresMesh`, whether or not that
neighbor's completion had been counted.  The counter is therefore no running
count of density-ready (or even present) neighbors; the density-ready gate
before meshing is enforced by `init_mesh` instead. -/
theorem handle_generation_counter_spec (w : WorldMap) (pos : IVec3) (e : Entry)
    (he : wLookup w pos = some e) (hmn : e.missingNeighbors = none)
    (hrm : e.requiresMesh = false) :
    ((wLookup (handleGenStep w pos) pos).map Entry.requiresMesh = some true
      ↔ ∀ d : Direction, (wLookup w (pos + d.toIVec3)).isSome = true) ∧
    (0 < (Direction.all.filter fun d =>
        (wLookup w (pos + d.toIVec3)).isNone).length →
      (wLookup (handleGenStep w pos) pos).map Entry.missingNeighbors
        = some (some ((Direction.all.filter fun d =>
            (wLookup w (pos + d.toIVec3)).isNone).length))) ∧
    ((Direction.all.filter fun d =>
        (wLookup w (pos + d.toIVec3)).isNone).length = 0 →
      (wLookup (handleGenStep w pos) pos).map Entry.missingNeighbors
        = some none) ∧
    (∀ q : IVec3, ∀ e2 : Entry, ∀ m : Nat,
      wLookup w q = some e2 → (∃ d : Direction, pos + d.toIVec3 = q) →
      e2.missingNeighbors = some m →
      ((1 < m → wLookup (handleGenStep w pos) q
          = some { e2 with missingNeighbors := some (m - 1) }) ∧
        (m ≤ 1 → wLookup (handleGenStep w pos) q
          = some { e2 with
                    missingNeighbors := none
                    requiresMesh := true }))) := by
  have h2 : wLookup (handleGenStep w pos) pos
      = (wLookup w pos).map
          (handleGenUpdate pos
            (6 - (Direction.all.filter fun d =>
              (wLookup w (pos + d.toIVec3)).isSome).length) pos) :=
    wLookup_map w
      (fun c e2 =>
        handleGenUpdate pos
          (6 - (Direction.all.filter fun d =>
            (wLookup w (pos + d.toIVec3)).isSome).length) c e2) pos
  have hfn : (fun (d : Direction) => (wLookup w (pos + d.toIVec3)).isNone)
      = fun (d : Direction) => !((wLookup w (pos + d.toIVec3)).isSome) :=
    funext fun d => (Option.bnot_isSome _).symm
  have hpart := direction_filter_partition
    fun d => (wLookup w (pos + d.toIVec3)).isSome
  have hle := direction_filter_length_le
    fun d => (wLookup w (pos + d.toIVec3)).isSome
  rw [h2, he, hfn]
  simp only [Option.map_some']
  unfold handleGenUpdate
  rw [if_pos rfl]
  refine ⟨?_, ?_, ?_, ?_⟩
  · simp only []
    rw [hrm]
    constructor
    · intro hsome
      have hval := Option.some.inj hsome
      have hm0 : 6 - (Direction.all.filter fun d =>
          (wLookup w (pos + d.toIVec3)).isSome).length = 0 := by
        by_contra hne
        rw [if_neg hne] at hval
        cases hval
      exact (direction_filter_length_eq_six _).mp (by omega)
    · intro hall
      have h6 := (direction_filter_length_eq_six _).mpr hall
      rw [if_pos (by omega)]
  · intro hpos
    simp only []
    rw [if_pos (by omega)]
    refine congrArg _ (congrArg _ ?_)
    omega
  · intro hzero
    simp only []
    rw [if_neg (by omega), hmn]
  · intro q e2 m hq hex hm
    obtain ⟨d, hd⟩ := hex
    have hne : q ≠ pos := by
      rw [← hd]
      exact neighbor_ne_self pos d
    have h3 : wLookup (handleGenStep w pos) q
        = (wLookup w q).map
            (handleGenUpdate pos
              (6 - (Direction.all.filter fun d2 =>
                (wLookup w (pos + d2.toIVec3)).isSome).length) q) :=
      wLookup_map w
        (fun c e3 =>
          handleGenUpdate pos
            (6 - (Direction.all.filter fun d2 =>
              (wLookup w (pos + d2.toIVec3)).isSome).length) c e3) q
    rw [h3, hq]
    simp only [Option.map_some']
    unfold handleGenUpdate
    rw [if_neg hne,
      if_pos (List.any_eq_true.mpr ⟨d, direction_all_mem d, by simp [hd]⟩),
      hm]
    dsimp only
    constructor
    · intro h1m
      rw [if_pos h1m]
    · intro h1m
      rw [if_neg (by omega)]


theorem handle_generation_counter_spec_witness :
    wLookup wPlusShape ⟨0, 0, 0⟩ = some entryGenerating ∧
    (((wLookup (handleGenStep wPlusShape ⟨0, 0, 0⟩) ⟨0, 0, 0⟩).map
          Entry.requiresMesh = some true
        ↔ ∀ d : Direction,
          (wLookup wPlusShape ((⟨0, 0, 0⟩ : IVec3) + d.toIVec3)).isSome = true) ∧
      (0 < (Direction.all.filter fun d =>
          (wLookup wPlusShape ((⟨0, 0, 0⟩ : IVec3) + d.toIVec3)).isNone).length →
        (wLookup (handleGenStep wPlusShape ⟨0, 0, 0⟩) ⟨0, 0, 0⟩).map
            Entry.missingNeighbors
          = some (some ((Direction.all.filter fun d =>
              (wLookup wPlusShape
                ((⟨0, 0, 0⟩ : IVec3) + d.toIVec3)).isNone).length))) ∧
      ((Direction.all.filter fun d =>
          (wLookup wPlusShape ((⟨0, 0, 0⟩ : IVec3) + d.toIVec3)).isNone).length
            = 0 →
        (wLookup (handleGenStep wPlusShape ⟨0, 0, 0⟩) ⟨0, 0, 0⟩).map
            Entry.missingNeighbors = some none) ∧
      (∀ q : IVec3, ∀ e2 : Entry, ∀ m : Nat,
        wLookup wPlusShape q = some e2 →
        (∃ d : Direction, (⟨0, 0, 0⟩ : IVec3) + d.toIVec3 = q) →
        e2.missingNeighbors = some m →
        ((1 < m → wLookup (handleGenStep wPlusShape ⟨0, 0, 0⟩) q
            = some { e2 with missingNeighbors := some (m - 1) }) ∧
          (m ≤ 1 → wLookup (handleGenStep wPlusShape ⟨0, 0, 0⟩) q
            = some { e2 with
                      missingNeighbors := none
                      requiresMesh := true })))) :=
  ⟨by decide,
    handle_generation_counter_spec wPlusShape ⟨0, 0, 0⟩ entryGenerating
      (by decide) rfl rfl⟩


instance : Mul QVec3 := ⟨fun a b => ⟨a.x * b.x, a.y * b.y, a.z * b.z⟩⟩

/-- The growing geometry buffers of `Cube::mesh` / `Chunk::mesh`
(`indices`, `positions`, `normals`, `uvs`). -/
structure MeshSt where
  indices : List Nat
  positions : List QVec3
  normals : List QVec3
  uvs : List (Rat × Rat)
  deriving DecidableEq, Repr

/-- The empty buffers `Chunk::mesh` starts from. -/
def emptySt : MeshSt := ⟨[], [], [], []⟩

/-- `r_p` from `Cube::mesh` (`src/block.rs`): the four corners of the
canonical `-z` face template, in winding order. -/
def rP : List QVec3 :=
  [⟨-(1/2), -(1/2), -(1/2)⟩, ⟨-(1/2), 1/2, -(1/2)⟩,
   ⟨1/2, 1/2, -(1/2)⟩, ⟨1/2, -(1/2), -(1/2)⟩]

/-- `r_uvs` from `Cube::mesh`. -/
def rUVs : List (Rat × Rat) := [(1, 1), (1, 0), (0, 0), (0, 1)]

/-- `Cube::minf`: `min.as_vec3() / 16.0` (exact in `f32`). -/
def Cube.minf (c : Cube) : QVec3 :=
  ⟨(c.min.x : Rat) / 16, (c.min.y : Rat) / 16, (c.min.z : Rat) / 16⟩

/-- `Cube::maxf`: `max.as_vec3() / 16.0`. -/
def Cube.maxf (c : Cube) : QVec3 :=
  ⟨(c.max.x : Rat) / 16, (c.max.y : Rat) / 16, (c.max.z : Rat) / 16⟩

/-- One vertex of a face quad in `Cube::mesh`: rotate the template corner,
shift to `[0,1]`, scale between the cube's fractional corners, and offset by
the cell position. -/
def cubeCorner (c : Cube) (pos : QVec3) (d : Direction) (p : QVec3) : QVec3 :=
  let p1 := rotQuat d p + ⟨1 / 2, 1 / 2, 1 / 2⟩
  let p2 := c.minf + p1 * (c.maxf - c.minf)
  p2 + pos

/-- The body of the per-direction loop of `Cube::mesh` (`src/block.rs`):
emit the quad for direction `d` unless the face's cull direction is `d` and
the neighbor in direction `d` is occupied.  `texUV` models
`TextureMap::get().uv(..)` (the atlas rectangle of a texture id). -/
def faceMesh (texUV : Nat → (Rat × Rat) × (Rat × Rat)) (c : Cube) (pos : QVec3)
    (occupied : Direction → Bool) (d : Direction) (st : MeshSt) : MeshSt :=
  if (c.faces d).cull = some d ∧ occupied d = true then st
  else
    let j := st.indices.length / 6 * 4
    let uv := texUV (c.faces d).texture
    { indices := st.indices ++ [j, j + 1, j + 2, j, j + 2, j + 3]
      positions := st.positions ++ rP.map (cubeCorner c pos d)
      normals := st.normals ++ List.replicate 4 (toQVec3 d.toIVec3)
      uvs := st.uvs ++ rUVs.map fun r =>
        (uv.1.1 + r.1 * (uv.2.1 - uv.1.1), uv.1.2 + r.2 * (uv.2.2 - uv.1.2)) }

/-- `Cube::mesh`: the loop over the six directions. -/
def Cube.meshB (texUV : Nat → (Rat × Rat) × (Rat × Rat)) (c : Cube)
    (pos : QVec3) (occupied : Direction → Bool) (st : MeshSt) : MeshSt :=
  Direction.all.foldl (fun st d => faceMesh texUV c pos occupied d st) st

/-- The neighbor-occupancy test of `Chunk::mesh` for cell `pos` in direction
`d`: an in-chunk neighbor is consulted through the registry's opacity flag;
an out-of-bounds neighbor is wrapped (`(p + 32) % 32`), mapped onto the
shared 2-D surface via `to_surface(d.inverse())` and looked up in the
supplied border for `d`. -/
def neighborOccupied (c : Chunk) (reg : Registry)
    (borders : Direction → Border) (pos : IVec3) (d : Direction) : Bool :=
  let p := pos + d.toIVec3
  if cubeIn p then
    c.occupiedAt reg p
  else
    (borders d).occupied
      (toSurface d.inverse ⟨(p.x + 32) % 32, (p.y + 32) % 32, (p.z + 32) % 32⟩)

/-- The per-cell body of `Chunk::mesh` (`src/chunk.rs`): compute the six
neighbor occupancies; if all six neighbors are occupied the cell is skipped
entirely, otherwise each of the block's cubes emits its faces. -/
def meshCell (texUV : Nat → (Rat × Rat) × (Rat × Rat)) (c : Chunk)
    (reg : Registry) (borders : Direction → Border) (pos : IVec3)
    (st : MeshSt) : MeshSt :=
  let occ := fun d => neighborOccupied c reg borders pos d
  if Direction.all.all occ then st
  else
    (reg (c pos)).cubes.foldl
      (fun st cu => Cube.meshB texUV cu (toQVec3 pos) occ st) st

/-- Modelled from the spec: the iteration helper `for_uvec3` is referenced by
`src/chunk.rs` and `src/generation.rs` but its definition is not among the
provided sources; per the spec it visits "every cell", so it is embedded as
the enumeration of `[0,32)³`. -/
def cellList : List IVec3 :=
  (List.range 32).flatMap fun (x : Nat) =>
    (List.range 32).flatMap fun (y : Nat) =>
      (List.range 32).map fun (z : Nat) => ⟨(x : Int), (y : Int), (z : Int)⟩

/-- `Chunk::mesh`: fold the per-cell emission over all cells, starting from
empty buffers. -/
def Chunk.meshB (c : Chunk) (reg : Registry)
    (texUV : Nat → (Rat × Rat) × (Rat × Rat))
    (borders : Direction → Border) : MeshSt :=
  cellList.foldl (fun st pos => meshCell texUV c reg borders pos st) emptySt

/-- C7: a cell all six of whose neighbors are opaque — in-chunk neighbors by
their block definition's opacity flag, across-face neighbors by the matching
bit of the supplied border — contributes no geometry at all: the per-cell
step of `Chunk::mesh` returns the buffers unchanged. -/
theorem mesh_skips_enclosed_cell (texUV : Nat → (Rat × Rat) × (Rat × Rat))
    (c : Chunk) (reg : Registry) (borders : Direction → Border) (pos : IVec3)
    (st : MeshSt)
    (h : ∀ d : Direction, neighborOccupied c reg borders pos d = true) :
    meshCell texUV c reg borders pos st = st := by
  unfold meshCell
  rw [if_pos (List.all_eq_true.mpr fun d _ => h d)]

/-- A texture atlas stub: every texture id occupies the whole `[0,1]²`
rectangle. -/
def texUVFull : Nat → (Rat × Rat) × (Rat × Rat) := fun _ => ((0, 0), (1, 1))

/-- A uniform all-stone chunk. -/
def chunkStone : Chunk := fun _ => (1 : BlockId)

theorem mesh_skips_enclosed_cell_witness :
    meshCell texUVFull chunkStone registryTwo (fun _ => Border.new) ⟨1, 1, 1⟩
      emptySt = emptySt := by
  refine mesh_skips_enclosed_cell texUVFull chunkStone registryTwo _ ⟨1, 1, 1⟩
    emptySt ?_
  intro d
  cases d <;> decide

/-- C8: `Cube::mesh` emits the quad of direction `d` iff it is not the case
that the face's cull direction is `d` and the neighbor in `d` is occupied;
an emitted quad appends exactly 4 vertex positions, 4 copies of `d`'s unit
normal, 4 UV coordinates, and the 6 indices
`(j, j+1, j+2), (j, j+2, j+3)` over its 4 new vertices
(`j = indices.len/6*4` equals the number of previously emitted vertices). -/
theorem cube_face_quad_spec (texUV : Nat → (Rat × Rat) × (Rat × Rat))
    (c : Cube) (pos : QVec3) (occupied : Direction → Bool) (d : Direction)
    (st : MeshSt) (k : Nat)
    (hi : st.indices.length = 6 * k) (hp : st.positions.length = 4 * k) :
    ((c.faces d).cull = some d ∧ occupied d = true →
      faceMesh texUV c pos occupied d st = st) ∧
    (¬((c.faces d).cull = some d ∧ occupied d = true) →
      (faceMesh texUV c pos occupied d st).positions
          = st.positions ++ rP.map (cubeCorner c pos d) ∧
        (rP.map (cubeCorner c pos d)).length = 4 ∧
        (faceMesh texUV c pos occupied d st).normals
          = st.normals ++ List.replicate 4 (toQVec3 d.toIVec3) ∧
        (faceMesh texUV c pos occupied d st).uvs.length = st.uvs.length + 4 ∧
        (faceMesh texUV c pos occupied d st).indices
          = st.indices ++
            [st.positions.length, st.positions.length + 1,
             st.positions.length + 2, st.positions.length,
             st.positions.length + 2, st.positions.length + 3]) := by
  constructor
  · intro hcull
    unfold faceMesh
    rw [if_pos hcull]
  · intro hcull
    have hj : st.indices.length / 6 * 4 = st.positions.length := by omega
    unfold faceMesh
    rw [if_neg hcull]
    refine ⟨rfl, rfl, rfl, ?_, ?_⟩
    · simp [rUVs]
    · rw [hj]

/-- A 6-face cube culling each face against its own direction. -/
def cubeFull : Cube :=
  ⟨⟨0, 0, 0⟩, ⟨16, 16, 16⟩, fun d => ⟨0, some d⟩⟩

theorem cube_face_quad_spec_witness :
    ([] : List Nat).length = 6 * 0 ∧ ([] : List QVec3).length = 4 * 0 ∧
    (((cubeFull.faces Direction.NegZ).cull = some Direction.NegZ ∧
        (fun _ => false) Direction.NegZ = true →
      faceMesh texUVFull cubeFull ⟨0, 0, 0⟩ (fun _ => false) Direction.NegZ
        emptySt = emptySt) ∧
    (¬((cubeFull.faces Direction.NegZ).cull = some Direction.NegZ ∧
        (fun _ => false) Direction.NegZ = true) →
      (faceMesh texUVFull cubeFull ⟨0, 0, 0⟩ (fun _ => false) Direction.NegZ
          emptySt).positions
        = emptySt.positions
            ++ rP.map (cubeCorner cubeFull ⟨0, 0, 0⟩ Direction.NegZ) ∧
      (rP.map (cubeCorner cubeFull ⟨0, 0, 0⟩ Direction.NegZ)).length = 4 ∧
      (faceMesh texUVFull cubeFull ⟨0, 0, 0⟩ (fun _ => false) Direction.NegZ
          emptySt).normals
        = emptySt.normals
            ++ List.replicate 4 (toQVec3 Direction.NegZ.toIVec3) ∧
      (faceMesh texUVFull cubeFull ⟨0, 0, 0⟩ (fun _ => false) Direction.NegZ
          emptySt).uvs.length = emptySt.uvs.length + 4 ∧
      (faceMesh texUVFull cubeFull ⟨0, 0, 0⟩ (fun _ => false) Direction.NegZ
          emptySt).indices
        = emptySt.indices ++
          [emptySt.positions.length, emptySt.positions.length + 1,
           emptySt.positions.length + 2, emptySt.positions.length,
           emptySt.positions.length + 2, emptySt.positions.length + 3])) :=
  ⟨rfl, rfl,
    cube_face_quad_spec texUVFull cubeFull ⟨0, 0, 0⟩ (fun _ => false)
      Direction.NegZ emptySt 0 rfl rfl⟩


/-- `Range<f32>` (`start..end`) with exact rational endpoints; Rust's
`Range::contains` is `start <= v && v < end`.  The `end` field is named
`stop` because `end` is a Lean keyword. -/
structure QRange where
  start : Rat
  stop : Rat

def QRange.containsQ (r : QRange) (v : Rat) : Prop := r.start ≤ v ∧ v < r.stop

instance (r : QRange) (v : Rat) : Decidable (r.containsQ v) := by
  unfold QRange.containsQ; infer_instance

/-- `Range<isize>` (`start..end`) for `dirt_range`. -/
structure ZRange where
  start : Int
  stop : Int

def ZRange.containsZ (r : ZRange) (v : Int) : Prop := r.start ≤ v ∧ v < r.stop

instance (r : ZRange) (v : Int) : Decidable (r.containsZ v) := by
  unfold ZRange.containsZ; infer_instance

/-- The fields of `WorldGen` (`src/generation.rs`) that `generate_chunk`
reads.  The ridged-simplex noise comes from an external crate, so the
composed density field `solid` (built in `generate_chunk` as
`base_strength * noise(p) + height.lerp_inv(p.y)` and read through
`solid.get`) is abstracted as the function `solidVal` passed to
`generateChunk`. -/
structure WorldGenM where
  baseLimit : QRange
  height : QRange
  dirtHeight : Nat
  dirtRange : ZRange

/-- `generate_chunk` from `src/generation.rs`: the uniform air/stone
shortcuts, then per cell the solid test against `base_limit`, the dirt/grass
layering inside `dirt_range` (grass when the cell directly above is not
solid, else dirt when one of the cells `2..=dirt_height` above is not solid),
and stone otherwise; non-solid cells keep the air block the chunk was
initialized with. -/
def generateChunk (pos : IVec3) (gen : WorldGenM) (solidVal : IVec3 → Rat) :
    Chunk :=
  if (⌈gen.height.stop / 32⌉ : Int) < pos.y then Chunk.ofUniform 0
  else if pos.y < ⌊(gen.height.start - 1) / 32⌋ then Chunk.ofUniform 1
  else
    fun p =>
      let gp := p + ⟨pos.x * 32, pos.y * 32, pos.z * 32⟩
      if gen.baseLimit.containsQ (solidVal gp) then
        if gen.dirtRange.containsZ gp.y then
          if ¬gen.baseLimit.containsQ (solidVal (gp + ⟨0, 1, 0⟩)) then
            (3 : BlockId)
          else if (List.range' 2 (gen.dirtHeight - 1)).any fun i =>
              !(decide (gen.baseLimit.containsQ
                (solidVal (gp + ⟨0, (i : Int), 0⟩)))) then
            (2 : BlockId)
          else 1
        else 1
      else 0

/-- C9: in `generate_chunk` (away from the uniform shortcuts), a solid cell
inside `dirt_range` is assigned exactly one of grass (`BlockId 3`), dirt
(`BlockId 2`) or stone (`BlockId 1`): grass iff the cell directly above is
not solid, dirt iff the cell above is solid but some cell within
`dirt_height` above is not, stone iff every cell within `dirt_height` above
is solid; a solid cell outside `dirt_range` is always stone. -/
theorem generate_chunk_layering (pos : IVec3) (gen : WorldGenM)
    (solidVal : IVec3 → Rat) (p : IVec3)
    (h1 : ¬((⌈gen.height.stop / 32⌉ : Int) < pos.y))
    (h2 : ¬(pos.y < ⌊(gen.height.start - 1) / 32⌋))
    (hs : gen.baseLimit.containsQ
      (solidVal (p + ⟨pos.x * 32, pos.y * 32, pos.z * 32⟩))) :
    (gen.dirtRange.containsZ (p + ⟨pos.x * 32, pos.y * 32, pos.z * 32⟩).y →
      ((generateChunk pos gen solidVal p = 3 ↔
          ¬gen.baseLimit.containsQ
            (solidVal (p + ⟨pos.x * 32, pos.y * 32, pos.z * 32⟩ + ⟨0, 1, 0⟩))) ∧
        (generateChunk pos gen solidVal p = 2 ↔
          (gen.baseLimit.containsQ
              (solidVal (p + ⟨pos.x * 32, pos.y * 32, pos.z * 32⟩ + ⟨0, 1, 0⟩)) ∧
            ∃ i : Nat, 1 ≤ i ∧ i ≤ gen.dirtHeight ∧
              ¬gen.baseLimit.containsQ (solidVal
                (p + ⟨pos.x * 32, pos.y * 32, pos.z * 32⟩ + ⟨0, (i : Int), 0⟩)))) ∧
        (generateChunk pos gen solidVal p = 1 ↔
          (gen.baseLimit.containsQ
              (solidVal (p + ⟨pos.x * 32, pos.y * 32, pos.z * 32⟩ + ⟨0, 1, 0⟩)) ∧
            ∀ i : Nat, 1 ≤ i → i ≤ gen.dirtHeight →
              gen.baseLimit.containsQ (solidVal
                (p + ⟨pos.x * 32, pos.y * 32, pos.z * 32⟩ + ⟨0, (i : Int), 0⟩)))))) ∧
    (¬gen.dirtRange.containsZ (p + ⟨pos.x * 32, pos.y * 32, pos.z * 32⟩).y →
      generateChunk pos gen solidVal p = 1) := by
  have hval : generateChunk pos gen solidVal p =
      (if gen.baseLimit.containsQ
          (solidVal (p + ⟨pos.x * 32, pos.y * 32, pos.z * 32⟩)) then
        if gen.dirtRange.containsZ (p + ⟨pos.x * 32, pos.y * 32, pos.z * 32⟩).y
        then
          if ¬gen.baseLimit.containsQ
              (solidVal (p + ⟨pos.x * 32, pos.y * 32, pos.z * 32⟩ + ⟨0, 1, 0⟩))
          then (3 : BlockId)
          else if (List.range' 2 (gen.dirtHeight - 1)).any fun i =>
              !(decide (gen.baseLimit.containsQ (solidVal
                (p + ⟨pos.x * 32, pos.y * 32, pos.z * 32⟩ + ⟨0, (i : Int), 0⟩))))
          then (2 : BlockId)
          else 1
        else 1
      else 0) := by
    unfold generateChunk
    rw [if_neg h1, if_neg h2]
  rw [hval, if_pos hs]
  set gp := p + (⟨pos.x * 32, pos.y * 32, pos.z * 32⟩ : IVec3) with hgp
  constructor
  · intro hdirt
    rw [if_pos hdirt]
    by_cases hg : gen.baseLimit.containsQ (solidVal (gp + ⟨0, 1, 0⟩))
    · rw [if_neg (by simpa using hg)]
      by_cases hany : (List.range' 2 (gen.dirtHeight - 1)).any fun i =>
          !(decide (gen.baseLimit.containsQ
            (solidVal (gp + ⟨0, (i : Int), 0⟩))))
      · rw [if_pos hany]
        rw [List.any_eq_true] at hany
        obtain ⟨i, hmem, hni⟩ := hany
        rw [List.mem_range'_1] at hmem
        refine ⟨?_, ?_, ?_⟩
        · constructor
          · intro h3
            exact absurd h3 (by decide)
          · intro hcon
            exact absurd hg hcon
        · constructor
          · intro _
            refine ⟨hg, i, by omega, by omega, ?_⟩
            simpa using hni
          · intro _
            rfl
        · constructor
          · intro h1g
            exact absurd h1g (by decide)
          · rintro ⟨-, hall⟩
            have := hall i (by omega) (by omega)
            simp [this] at hni
      · rw [if_neg hany]
        have hall : ∀ i : Nat, 2 ≤ i → i ≤ gen.dirtHeight →
            gen.baseLimit.containsQ (solidVal (gp + ⟨0, (i : Int), 0⟩)) := by
          intro i hi1 hi2
          by_contra hni
          have hmem : i ∈ List.range' 2 (gen.dirtHeight - 1) := by
            rw [List.mem_range'_1]
            omega
          exact hany (List.any_eq_true.mpr ⟨i, hmem, by simpa using hni⟩)
        refine ⟨?_, ?_, ?_⟩
        · constructor
          · intro h3
            exact absurd h3 (by decide)
          · intro hcon
            exact absurd hg hcon
        · constructor
          · intro h2g
            exact absurd h2g (by decide)
          · rintro ⟨-, i, hi1, hi2, hni⟩
            rcases Nat.lt_or_ge i 2 with hlt | hge
            · have hieq : i = 1 := by omega
              subst hieq
              exact absurd (by simpa using hg) hni
            · exact absurd (hall i hge hi2) hni
        · constructor
          · intro _
            refine ⟨hg, ?_⟩
            intro i hi1 hi2
            rcases Nat.lt_or_ge i 2 with hlt | hge
            · have hieq : i = 1 := by omega
              subst hieq
              simpa using hg
            · exact hall i hge hi2
          · intro _
            rfl
    · rw [if_pos (by simpa using hg)]
      refine ⟨?_, ?_, ?_⟩
      · exact ⟨fun _ => hg, fun _ => rfl⟩
      · constructor
        · intro h2g
          exact absurd h2g (by decide)
        · rintro ⟨hcon, -⟩
          exact absurd hcon hg
      · constructor
        · intro h1g
          exact absurd h1g (by decide)
        · rintro ⟨hcon, -⟩
          exact absurd hcon hg
  · intro hdirt
    rw [if_neg hdirt]


/-- Parameters for the layering witness: solid is value `0`, `base_limit`
is `0..1`, heights `-128..128`, `dirt_height = 2`, `dirt_range = 0..100`. -/
def genEx : WorldGenM := ⟨⟨0, 1⟩, ⟨-128, 128⟩, 2, ⟨0, 100⟩⟩

/-- A density field that is solid up to world height `5` and air above. -/
def solidEx : IVec3 → Rat := fun gp => if gp.y ≤ 5 then 0 else 1

theorem generate_chunk_layering_witness :
    generateChunk ⟨0, 0, 0⟩ genEx solidEx ⟨0, 5, 0⟩ = 3 :=
  (((generate_chunk_layering ⟨0, 0, 0⟩ genEx solidEx ⟨0, 5, 0⟩
    (by norm_num [genEx]) (by norm_num [genEx]) (by decide)).1
      (by decide)).1).mpr (by decide)


end Voxel
